import Mathlib

/-!
Shallow embedding of `perceiver_pytorch/multi_modality_perceiver.py`
(repository fac2003/perceiver-multi-modality-pytorch).

Tensors are modelled as a shape (list of dimension sizes) together with a
total valuation on multi-indices with rational values; the floating-point
trigonometric functions and log-spaced frequencies used by the Fourier
positional encoder, and the learned attention / feed-forward / normalization
/ linear kernels, are external collaborators and are modelled as opaque
function parameters.  Python exceptions are modelled by the `PErr` type:
`keyError` is a dict-lookup failure (the spec's `ConfigurationError`),
`assertionError` a failed `assert` (the spec's `ShapeMismatchError`),
`runtimeError`/`valueError`/`nameError` the corresponding torch / Python
failures.
-/

/-- Python exception kinds raised (directly or via torch) by the source. -/
inductive PErr where
  | keyError (key : String)
  | assertionError (msg : String)
  | runtimeError (msg : String)
  | valueError (msg : String)
  | nameError (msg : String)
  deriving DecidableEq, Repr

/-- A torch tensor: a shape and a total valuation on multi-indices.
Values are rationals (idealized floats); indices outside the shape are
irrelevant junk. -/
structure PyTensor where
  shape : List Nat
  val : List Nat → ℚ

/-- Code-point comparison of chars, as used by Python string ordering. -/
def charLt (a b : Char) : Bool := a.toNat < b.toNat

/-- Lexicographic code-point comparison of char lists (Python string `<=`). -/
def lexLe : List Char → List Char → Bool
  | [], _ => true
  | _ :: _, [] => false
  | a :: as, b :: bs =>
    if charLt a b then true else if charLt b a then false else lexLe as bs

/-- Python string `<=` on code points, as used by `sorted`. -/
def strLe (a b : String) : Prop := lexLe a.data b.data = true

instance : DecidableRel strLe := fun a b => by unfold strLe; infer_instance

/-- Python `sorted` on a list of string keys. -/
def sortKeys (ks : List String) : List String := List.insertionSort strLe ks

/-- Substring test (used to state whether an error message names something). -/
def leadsWith : List Char → List Char → Bool
  | [], _ => true
  | _ :: _, [] => false
  | a :: as, b :: bs => a = b && leadsWith as bs

/-- Whether `pat` occurs as a contiguous substring of `s`. -/
def containsSeq (pat : List Char) : List Char → Bool
  | [] => leadsWith pat []
  | l@(_ :: rest) => leadsWith pat l || containsSeq pat rest

/-- Whether the string `pat` occurs inside the string `s`. -/
def strContains (s pat : String) : Bool := containsSeq pat.data s.data

/-- InputModality dataclass: static metadata describing one input modality
(`multi_modality_perceiver.py`, lines 12-25). -/
structure InputModality where
  name : String
  input_channels : Nat
  input_axis : Nat
  num_freq_bands : Nat
  max_freq : ℚ
  freq_base : Nat := 2
  deriving DecidableEq

/-- Derived property `InputModality.input_dim`:
`input_axis * ((num_freq_bands * 2) + 1) + input_channels` (lines 21-25). -/
def InputModality.input_dim (m : InputModality) : Nat :=
  m.input_axis * ((m.num_freq_bands * 2) + 1) + m.input_channels

/-- Valuation of `torch.linspace(-1., 1., steps)` at index `i`
(idealized reals; `steps <= 1` gives the start value, as in torch). -/
def linspaceVal (steps i : Nat) : ℚ :=
  if steps ≤ 1 then -1 else -1 + 2 * i / (steps - 1)

/-- The coordinate grid `torch.stack(torch.meshgrid(*axis_pos), dim=-1)` of
line 126: shape `axes ++ [axes.length]`, entry at `idx ++ [j]` is the
linspace value of axis `j` at position `idx_j` ('ij' indexing). -/
def posGrid (axes : List Nat) : PyTensor :=
  ⟨axes ++ [axes.length], fun idx =>
    let j := idx.getLastD 0
    linspaceVal (axes.getD j 0) (idx.dropLast.getD j 0)⟩

/-- External floating-point collaborators of the Fourier encoder: `sin` and
`cos` (with the factor π folded in) and the log-spaced frequency table. -/
structure FloatOps where
  sinf : ℚ → ℚ
  cosf : ℚ → ℚ
  freq : ℚ → Nat → Nat → Nat → ℚ

/-- Modelled from the spec: `fourier_encode` is imported from
`perceiver_pytorch.perceiver_pytorch`, which is not part of the sources;
per spec §4.1 each scalar coordinate `v` expands to a feature vector of
length `2*num_bands + 1`: the original scalar followed by `sin` and `cos`
of the scalar scaled by each of `num_bands` log-spaced frequencies (times
π).  Trigonometry and the frequency table are the opaque `FloatOps`. -/
def fourierEncode (fo : FloatOps) (maxFreq : ℚ) (bands base : Nat)
    (pos : PyTensor) : PyTensor :=
  ⟨pos.shape ++ [2 * bands + 1], fun idx =>
    let j := idx.getLastD 0
    let v := pos.val idx.dropLast
    if j = 0 then v
    else if j ≤ bands then fo.sinf (v * fo.freq maxFreq base bands (j - 1))
    else fo.cosf (v * fo.freq maxFreq base bands (j - bands - 1))⟩

/-- `rearrange(enc_pos, '... n d -> ... (n d)')` of line 129: fuse the last
two axes into one, row-major. -/
def flattenLast2 (t : PyTensor) : PyTensor :=
  let d := t.shape.getLastD 0
  let s2 := t.shape.dropLast
  ⟨s2.dropLast ++ [s2.getLastD 0 * d], fun idx =>
    let f := idx.getLastD 0
    t.val (idx.dropLast ++ [f / d, f % d])⟩

/-- `repeat(t, '... -> b ...', b=b)` (line 130) and
`repeat(latents, 'n d -> b n d', b=b)` (line 145): broadcast a new leading
batch axis. -/
def prependBroadcast (b : Nat) (t : PyTensor) : PyTensor :=
  ⟨b :: t.shape, fun idx => t.val (idx.drop 1)⟩

/-- `torch.zeros(size=shape)` (line 135). -/
def zerosT (shape : List Nat) : PyTensor := ⟨shape, fun _ => 0⟩

/-- `modality_encoding` (lines 28-45): the one-hot row
`torch.eye(num_modalities)[modality_index]` broadcast over batch and all
spatial axes; shape `(batch_size, *axes, num_modalities)`. -/
def modalityEncoding (batch_size : Nat) (axes : List Nat)
    (modality_index num_modalities : Nat) : PyTensor :=
  ⟨batch_size :: axes ++ [num_modalities], fun idx =>
    if idx.getLastD 0 = modality_index then 1 else 0⟩

/-- Value of the concatenation of `ts` along the last axis at a last-index
`j` (with common leading index `stem`): walk the segments. -/
def catLastVal (stem : List Nat) (j : Nat) : List PyTensor → ℚ
  | [] => 0
  | t :: rest =>
    let w := t.shape.getLastD 0
    if j < w then t.val (stem ++ [j]) else catLastVal stem (j - w) rest

/-- `torch.cat(ts, dim=-1)` (line 141): requires all shapes to agree except
in the last axis; the result's last axis is the sum of the widths. -/
def catLast (ts : List PyTensor) : Except PErr PyTensor :=
  match ts with
  | [] => .error (.runtimeError "torch.cat expected a non-empty list of Tensors")
  | t :: rest =>
    if rest.all (fun u => u.shape.dropLast == t.shape.dropLast) then
      .ok ⟨t.shape.dropLast ++ [(ts.map (fun u => u.shape.getLastD 0)).sum],
        fun idx => catLastVal idx.dropLast (idx.getLastD 0) ts⟩
    else .error (.runtimeError "Sizes of tensors must match except in dimension")

/-- Row-major decoding of a flat index into a multi-index for `dims`. -/
def decodeIdx : List Nat → Nat → List Nat
  | [], _ => []
  | _ :: rest, p => p / rest.prod :: decodeIdx rest (p % rest.prod)

/-- `rearrange(data, 'b ... d -> b (...) d')` (line 142): flatten all middle
axes into a single sequence axis. -/
def flattenMiddle (t : PyTensor) : PyTensor :=
  let mid := (t.shape.drop 1).dropLast
  ⟨[t.shape.headD 0, mid.prod, t.shape.getLastD 0], fun idx =>
    match idx with
    | [i, p, j] => t.val (i :: decodeIdx mid p ++ [j])
    | _ => 0⟩

/-- Middle (sequence) length of a rank-3 tensor. -/
def midLen (t : PyTensor) : Nat := (t.shape.drop 1).headD 0

/-- Value of the concatenation of rank-3 tensors along axis 1. -/
def catDim1Val (i p j : Nat) : List PyTensor → ℚ
  | [] => 0
  | t :: rest =>
    if p < midLen t then t.val [i, p, j] else catDim1Val i (p - midLen t) j rest

/-- `torch.cat(linearized_data, dim=1)` (line 148) on rank-3 tensors:
batch and feature axes must agree; sequence lengths add up. -/
def catDim1 (ts : List PyTensor) : Except PErr PyTensor :=
  match ts with
  | [] => .error (.runtimeError "torch.cat expected a non-empty list of Tensors")
  | t :: rest =>
    if t.shape.length == 3 &&
        rest.all (fun u => u.shape.length == 3 &&
          u.shape.headD 0 == t.shape.headD 0 &&
          u.shape.getLastD 0 == t.shape.getLastD 0) then
      .ok ⟨[t.shape.headD 0, (ts.map midLen).sum, t.shape.getLastD 0],
        fun idx =>
          match idx with
          | [i, p, j] => catDim1Val i p j ts
          | _ => 0⟩
    else .error (.runtimeError "Sizes of tensors must match except in dimension")

/-- Residual addition `f(x) + x` as used on lines 151-154.  Models torch
elementwise `+` for operands of equal shape; `forward` only ever adds
equal-shaped tensors when the attention blocks obey their shape contract,
so general broadcasting is modelled as an error. -/
def addT (a b : PyTensor) : Except PErr PyTensor :=
  if a.shape == b.shape then .ok ⟨a.shape, fun idx => a.val idx + b.val idx⟩
  else .error (.runtimeError "The size of a tensor must match the size of the other")

/-- `x.mean(dim=-2)` (line 156): arithmetic mean over the second-to-last
axis.  Only used on rank >= 2 tensors. -/
def meanDim2 (t : PyTensor) : PyTensor :=
  let pos := t.shape.length - 2
  let m := t.shape.getD pos 0
  ⟨t.shape.take pos ++ t.shape.drop (pos + 1), fun idx =>
    (((List.range m).map (fun r => t.val (idx.take pos ++ r :: idx.drop pos))).sum) / m⟩

/-- One entry of `self.layers` (lines 93-98): the four sub-blocks of one
repetition.  Each block is an opaque learned kernel (PreNorm-wrapped
Attention / FeedForward), an external collaborator; cross-attention also
receives the context and the optional mask. -/
structure LayerBlock where
  cross_attn : PyTensor → PyTensor → Option PyTensor → PyTensor
  cross_ff : PyTensor → PyTensor
  latent_attn : PyTensor → PyTensor
  latent_ff : PyTensor → PyTensor

/-- The MultiModalityPerceiver model state after `__init__`:
the registered modality list (line 68 builds `self.modalities` from it),
the learned latent seed (line 74), the layer stack (lines 88-98) and the
two kernels of `self.to_logits` (lines 100-103), which are opaque learned
collaborators (`nn.LayerNorm(latent_dim)` and
`nn.Linear(latent_dim, num_classes)`). -/
structure Perceiver where
  modalities : List InputModality
  latents : PyTensor
  layers : List LayerBlock
  norm : PyTensor → PyTensor
  linear : PyTensor → PyTensor
  num_classes : Nat

/-- Lookup in the dict `self.modalities = {m.name: m for m in modalities}`
(line 68): for duplicate names the last registration wins. -/
def lookupModality (l : List InputModality) (name : String) : Option InputModality :=
  l.reverse.find? (fun m => m.name == name)

/-- `max(modality.input_dim for modality in modalities)` (line 72), as a
fold (Python's `max` faults on an empty iterable; a model always has at
least one registered modality). -/
def maxInputDim (l : List InputModality) : Nat :=
  l.foldr (fun m acc => max m.input_dim acc) 0

/-- `self.max_modality_dim` (lines 70-73): the maximum `input_dim` over all
registered modalities plus one one-hot dimension per registered modality. -/
def maxModalityDim (P : Perceiver) : Nat :=
  maxInputDim P.modalities + P.modalities.length

/-- Mutable state of the fusion loop of `forward` (lines 113-143): the set
`batch_sizes` and the accumulated `linearized_data`. -/
structure LoopState where
  batchSizes : List Nat
  chunks : List PyTensor

/-- `batch_sizes.add(b)` (line 121): set insertion. -/
def insertBS (l : List Nat) (b : Nat) : List Nat := if b ∈ l then l else l ++ [b]

def axisAssertMsg : String := "input data must have the right number of axis"

def batchAssertMsg : String := "batch size must be the same across all modalities"

def negDimMsg : String := "Trying to create tensor with negative dimension"

/-- One iteration of the fusion loop of `forward` (lines 116-143) for the
modality at sorted position `mi` named `name`; `n` is
`num_modalities = len(multi_modality_data)` (line 114).  Mirrors the
source order: dict lookup (KeyError on unknown name), tuple unpacking of
the shape (needs at least two dims), the axis-count assert, the batch-size
assert, the Fourier position encoding (torch.stack faults on zero axes),
the padding computation (torch.zeros faults on a negative width), the
one-hot modality tag, concatenation along the feature axis and flattening
of the spatial axes. -/
def processModality (P : Perceiver) (fo : FloatOps) (n : Nat)
    (dat : String → PyTensor) (st : LoopState) (mi : Nat) (name : String) :
    Except PErr LoopState :=
  match lookupModality P.modalities name with
  | none => .error (.keyError name)
  | some modality =>
    let data := dat name
    if data.shape.length < 2 then
      .error (.valueError "not enough values to unpack")
    else
      let b := data.shape.headD 0
      let axis := (data.shape.drop 1).dropLast
      if axis.length ≠ modality.input_axis then .error (.assertionError axisAssertMsg)
      else
        let batchSizes := insertBS st.batchSizes b
        if batchSizes.length ≠ 1 then .error (.assertionError batchAssertMsg)
        else if axis.length = 0 then
          .error (.runtimeError "stack expects a non-empty TensorList")
        else
          let encPos := prependBroadcast b (flattenLast2
            (fourierEncode fo modality.max_freq modality.num_freq_bands
              modality.freq_base (posGrid axis)))
          let paddingSize : Int :=
            (maxModalityDim P : Int) - modality.input_dim - n
          if paddingSize < 0 then .error (.runtimeError negDimMsg)
          else
            let padding := zerosT (data.shape.dropLast ++ [paddingSize.toNat])
            let modEnc := modalityEncoding b axis mi n
            match catLast [data, padding, encPos, modEnc] with
            | .error e => .error e
            | .ok catted => .ok ⟨batchSizes, st.chunks ++ [flattenMiddle catted]⟩

/-- The fusion loop `for modality_index, modality_name in
enumerate(sorted(multi_modality_data.keys()))` (lines 116-143), run over an
already sorted key list starting at index `mi`. -/
def runLoop (P : Perceiver) (fo : FloatOps) (n : Nat) (dat : String → PyTensor) :
    Nat → LoopState → List String → Except PErr LoopState
  | _, st, [] => .ok st
  | mi, st, k :: rest =>
    match processModality P fo n dat st mi k with
    | .error e => .error e
    | .ok st' => runLoop P fo n dat (mi + 1) st' rest

/-- The cross-attention loop as written in the source (lines 150-151): only
`x = cross_attn(x, context=data, mask=mask) + x` is inside the `for`. -/
def crossLoop (ctx : PyTensor) (mask : Option PyTensor) :
    List LayerBlock → PyTensor → Except PErr PyTensor
  | [], x => .ok x
  | l :: rest, x =>
    match addT (l.cross_attn x ctx mask) x with
    | .error e => .error e
    | .ok x' => crossLoop ctx mask rest x'

/-- The latent stack exactly as the source executes it (lines 150-154): the
`for` body holds only the cross-attention update; the cross feed-forward,
latent self-attention and latent feed-forward residual updates are
dedented and run once after the loop, using the loop variables of the last
iteration (a `NameError` if the layer list is empty). -/
def runStack (layers : List LayerBlock) (x0 ctx : PyTensor)
    (mask : Option PyTensor) : Except PErr PyTensor :=
  match crossLoop ctx mask layers x0 with
  | .error e => .error e
  | .ok x =>
    match layers.getLast? with
    | none => .error (.nameError "name cross_ff is not defined")
    | some last =>
      match addT (last.cross_ff x) x with
      | .error e => .error e
      | .ok x1 =>
        match addT (last.latent_attn x1) x1 with
        | .error e => .error e
        | .ok x2 => addT (last.latent_ff x2) x2

/-- Modelled from the spec: the fully-nested interpretation of the latent
stack (spec §4.3 and §9): each repetition runs all four residual stages
(cross-attention, cross feed-forward, latent self-attention, latent
feed-forward) inside the loop. -/
def runStackSpec (ctx : PyTensor) (mask : Option PyTensor) :
    List LayerBlock → PyTensor → Except PErr PyTensor
  | [], x => .ok x
  | l :: rest, x =>
    match addT (l.cross_attn x ctx mask) x with
    | .error e => .error e
    | .ok x1 =>
      match addT (l.cross_ff x1) x1 with
      | .error e => .error e
      | .ok x2 =>
        match addT (l.latent_attn x2) x2 with
        | .error e => .error e
        | .ok x3 =>
          match addT (l.latent_ff x3) x3 with
          | .error e => .error e
          | .ok x4 => runStackSpec ctx mask rest x4

/-- `MultiModalityPerceiver.forward` (lines 105-157).  The input dict is a
key list `ks` (in insertion order) with a valuation `dat`;
`n = len(multi_modality_data)`; keys are processed in sorted order.  After
the fusion loop: `b = batch_sizes.pop()` (KeyError on an empty set), the
latent seed is broadcast to the batch, the per-modality sequences are
concatenated along the sequence axis, the latent stack runs, and the
output head takes the mean over the latent-slot axis followed by the
`to_logits` LayerNorm and Linear kernels. -/
def forward (P : Perceiver) (fo : FloatOps) (ks : List String)
    (dat : String → PyTensor) (mask : Option PyTensor) : Except PErr PyTensor :=
  let n := ks.length
  match runLoop P fo n dat 0 ⟨[], []⟩ (sortKeys ks) with
  | .error e => .error e
  | .ok st =>
    match st.batchSizes with
    | [] => .error (.keyError "pop from an empty set")
    | b :: _ =>
      let x0 := prependBroadcast b P.latents
      match catDim1 st.chunks with
      | .error e => .error e
      | .ok context =>
        match runStack P.layers x0 context mask with
        | .error e => .error e
        | .ok x => .ok (P.linear (P.norm (meanDim2 x)))

/-- The error of a forward result, if any. -/
def errOf (r : Except PErr PyTensor) : Option PErr :=
  match r with
  | .ok _ => none
  | .error e => some e

/-- The per-modality fused feature widths accumulated by the fusion loop. -/
def widthsOf (r : Except PErr LoopState) : Option (List Nat) :=
  match r with
  | .ok st => some (st.chunks.map (fun t => t.shape.getLastD 0))
  | .error _ => none

/-- Whether an error is one of the two input-validation kinds of spec §7:
a `ConfigurationError` (unknown modality, a KeyError in the source) or a
`ShapeMismatchError` (a failed shape assert in the source). -/
def isValidationErr : PErr → Bool
  | .keyError _ => true
  | .assertionError _ => true
  | _ => false

/-- Whether a forward result failed with an input-validation error. -/
def validationErrorOf (r : Except PErr PyTensor) : Bool :=
  match r with
  | .ok _ => false
  | .error e => isValidationErr e

/-- Parameter-instance identities of the four sub-blocks of one repetition
(`self.layers[i]`, lines 93-98).  Distinct numbers stand for distinct
freshly constructed parameter groups; equal numbers for the very same
parameter instances. -/
structure BlockIds where
  ca : Nat
  cf : Nat
  la : Nat
  lf : Nat
  deriving DecidableEq, Repr, Inhabited

/-- The four parameter-instance ids of one repetition as a list. -/
def BlockIds.ids (b : BlockIds) : List Nat := [b.ca, b.cf, b.la, b.lf]

/-- Two repetitions share no parameter instance. -/
def idsDisjoint (b1 b2 : BlockIds) : Prop := ∀ x, x ∈ b1.ids → x ∉ b2.ids

/-- State of the memoized block builders during `__init__`: a counter of
fresh parameter groups and one memo cell per builder (`get_cross_attn`,
`get_cross_ff`, `get_latent_attn`, `get_latent_ff`, lines 76-86). -/
structure BuildState where
  counter : Nat
  cca : Option Nat
  ccf : Option Nat
  cla : Option Nat
  clf : Option Nat

/-- Modelled from the spec: `cache_fn` is imported from
`perceiver_pytorch.perceiver_pytorch`, which is not part of the sources;
per spec §9 it is construction-time memoization of the block builders used
to realize weight tying: a call with `_cache=False` builds a fresh block
without touching the memo; a call with `_cache=True` returns the memoized
block, building and storing it on the first such call.  Returns the block
id, the new memo cell, and the new fresh counter. -/
def getCached (memo : Option Nat) (counter : Nat) (useCache : Bool) :
    Nat × Option Nat × Nat :=
  if useCache then
    match memo with
    | some v => (v, some v, counter)
    | none => (counter, some counter, counter + 1)
  else (counter, memo, counter + 1)

/-- One iteration of the construction loop (lines 89-98):
`should_cache = i > 0 and weight_tie_layers`, then the four builders run in
order `cross_attn`, `cross_ff`, `latent_attn`, `latent_ff`. -/
def buildLayer (tie : Bool) (i : Nat) (s : BuildState) : BlockIds × BuildState :=
  let sc := decide (0 < i) && tie
  let r1 := getCached s.cca s.counter sc
  let r2 := getCached s.ccf r1.2.2 sc
  let r3 := getCached s.cla r2.2.2 sc
  let r4 := getCached s.clf r3.2.2 sc
  (⟨r1.1, r2.1, r3.1, r4.1⟩, ⟨r4.2.2, r1.2.1, r2.2.1, r3.2.1, r4.2.1⟩)

/-- The construction loop `for i in range(depth)` (lines 89-98), from layer
index `i`, building `d` more layers. -/
def buildLayersAux (tie : Bool) : Nat → Nat → BuildState → List BlockIds
  | _, 0, _ => []
  | i, d + 1, s =>
    let r := buildLayer tie i s
    r.1 :: buildLayersAux tie (i + 1) d r.2

/-- The parameter-instance layout of `self.layers` after `__init__` with
the given `depth` and `weight_tie_layers`. -/
def buildLayers (depth : Nat) (tie : Bool) : List BlockIds :=
  buildLayersAux tie 0 depth ⟨0, none, none, none, none⟩

/-- The fused per-position feature width produced by the fusion loop for a
modality `m` whose submitted tensor has `c` channels, in a call with `n`
modalities: raw channels + zero padding + Fourier features + one-hot tag
(line 139). -/
def fusedWidth (P : Perceiver) (n : Nat) (m : InputModality) (c : Nat) : Nat :=
  c + (((maxModalityDim P : Int) - m.input_dim - n).toNat +
    (m.input_axis * (2 * m.num_freq_bands + 1) + n))

/-- Concrete opaque float library for example models. -/
def exFo : FloatOps := ⟨fun _ => 0, fun _ => 0, fun _ _ _ _ => 0⟩

/-- Concrete layer whose four kernels are identities (they trivially
satisfy the shape contract of pre-normalized residual blocks). -/
def exBlock : LayerBlock := ⟨fun x _ _ => x, id, id, id⟩

/-- Example modality `a`: 1 channel, 1 axis, 1 band, `input_dim = 4`. -/
def mA : InputModality :=
  { name := "a", input_channels := 1, input_axis := 1, num_freq_bands := 1, max_freq := 10 }

/-- Example modality `bb`: 2 channels, 1 axis, 1 band, `input_dim = 5`. -/
def mB : InputModality :=
  { name := "bb", input_channels := 2, input_axis := 1, num_freq_bands := 1, max_freq := 10 }

/-- A dense projection kernel to 5 output features (shape contract of
`nn.Linear(latent_dim, 5)`). -/
def exLinear : PyTensor → PyTensor :=
  fun y => ⟨y.shape.dropLast ++ [5], fun _ => 0⟩

/-- Example model with the two registered modalities `a` and `bb`,
latent seed of shape (2, 3), one repetition, identity kernels and a
5-class head; `max_modality_dim = 5 + 2 = 7`. -/
def exP : Perceiver :=
  { modalities := [mA, mB], latents := ⟨[2, 3], fun _ => 1⟩,
    layers := [exBlock], norm := id, linear := exLinear, num_classes := 5 }

/-- Example input dict valuation with the registered channel counts:
`a` gets shape (2, 3, 1) and `bb` gets shape (2, 4, 2). -/
def exDat : String → PyTensor := fun k =>
  if k = "a" then ⟨[2, 3, 1], fun _ => 1⟩ else ⟨[2, 4, 2], fun _ => 1⟩

/-- Input valuation whose `a` tensor has 9 channels instead of the
registered 1 (correct axis count and batch size). -/
def exDatWrong : String → PyTensor := fun _ => ⟨[2, 3, 9], fun _ => 1⟩

/-- Example modality `zz` with `input_axis = 2`. -/
def mZZ : InputModality :=
  { name := "zz", input_channels := 1, input_axis := 2, num_freq_bands := 1, max_freq := 10 }

/-- Model registering the single modality `zz` with `input_axis = 2`. -/
def exP4 : Perceiver :=
  { modalities := [mZZ], latents := ⟨[2, 3], fun _ => 1⟩,
    layers := [exBlock], norm := id, linear := exLinear, num_classes := 5 }

/-- Model registering only the modality `a`; `max_modality_dim = 4 + 1 = 5`. -/
def exP5 : Perceiver :=
  { modalities := [mA], latents := ⟨[2, 3], fun _ => 1⟩,
    layers := [exBlock], norm := id, linear := exLinear, num_classes := 5 }

/-- Input valuation giving every key a tensor of shape (2, 3, 1): one
middle axis, batch 2, 1 channel. -/
def exDat5 : String → PyTensor := fun _ => ⟨[2, 3, 1], fun _ => 1⟩

/-- Input valuation giving every key a tensor of shape (2, 3, 3, 1): two
middle axes. -/
def exDat3 : String → PyTensor := fun _ => ⟨[2, 3, 3, 1], fun _ => 1⟩

/-- A latent seed of shape (1,) with value 1, for exercising the stack. -/
def exX0 : PyTensor := ⟨[1], fun _ => 1⟩

/-- A context tensor for exercising the stack. -/
def exCtx : PyTensor := ⟨[1], fun _ => 0⟩

/-- The value at index (0,...) of a successful result (0 on error): used to
exhibit numeric divergence between two stack semantics. -/
def val0 (r : Except PErr PyTensor) : ℚ :=
  match r with
  | .ok t => t.val [0]
  | .error _ => 0

theorem charLt_iff (a b : Char) : charLt a b = true ↔ a.toNat < b.toNat := by
  simp [charLt]

theorem charLt_false_iff (a b : Char) : charLt a b = false ↔ ¬a.toNat < b.toNat := by
  simp [charLt]

theorem lexLe_total : ∀ as bs : List Char, lexLe as bs = true ∨ lexLe bs as = true
  | [], _ => Or.inl rfl
  | _ :: _, [] => Or.inr rfl
  | a :: as, b :: bs => by
    rcases Nat.lt_trichotomy a.toNat b.toNat with h | h | h
    · left; simp [lexLe, (charLt_iff a b).mpr h]
    · have h1 : charLt a b = false := (charLt_false_iff a b).mpr (by omega)
      have h2 : charLt b a = false := (charLt_false_iff b a).mpr (by omega)
      rcases lexLe_total as bs with hh | hh
      · left; simp [lexLe, h1, h2, hh]
      · right; simp [lexLe, h1, h2, hh]
    · right; simp [lexLe, (charLt_iff b a).mpr h]

theorem lexLe_cons_lt {a b : Char} (as bs : List Char) (h : a.toNat < b.toNat) :
    lexLe (a :: as) (b :: bs) = true := by
  simp [lexLe, charLt, h]

theorem lexLe_cons_gt {a b : Char} (as bs : List Char) (h : b.toNat < a.toNat) :
    lexLe (a :: as) (b :: bs) = false := by
  have h' : ¬a.toNat < b.toNat := by omega
  simp [lexLe, charLt, h, h']

theorem lexLe_cons_eq {a b : Char} (as bs : List Char) (h : ¬a.toNat < b.toNat)
    (h' : ¬b.toNat < a.toNat) : lexLe (a :: as) (b :: bs) = lexLe as bs := by
  simp [lexLe, charLt, h, h']

theorem lexLe_trans : ∀ {as bs cs : List Char}, lexLe as bs = true →
    lexLe bs cs = true → lexLe as cs = true
  | [], _, _, _, _ => rfl
  | _ :: _, [], _, h1, _ => by simp [lexLe] at h1
  | _ :: _, _ :: _, [], _, h2 => by simp [lexLe] at h2
  | a :: as, b :: bs, c :: cs, h1, h2 => by
    rcases Nat.lt_trichotomy b.toNat a.toNat with x | x | x
    · rw [lexLe_cons_gt as bs x] at h1
      simp at h1
    · rcases Nat.lt_trichotomy c.toNat b.toNat with y | y | y
      · rw [lexLe_cons_gt bs cs y] at h2
        simp at h2
      · rw [lexLe_cons_eq as bs (by omega) (by omega)] at h1
        rw [lexLe_cons_eq bs cs (by omega) (by omega)] at h2
        rw [lexLe_cons_eq as cs (by omega) (by omega)]
        exact lexLe_trans h1 h2
      · exact lexLe_cons_lt as cs (by omega)
    · rcases Nat.lt_trichotomy c.toNat b.toNat with y | y | y
      · rw [lexLe_cons_gt bs cs y] at h2
        simp at h2
      · exact lexLe_cons_lt as cs (by omega)
      · exact lexLe_cons_lt as cs (by omega)

theorem lexLe_antisymm : ∀ {as bs : List Char}, lexLe as bs = true →
    lexLe bs as = true → as = bs
  | [], [], _, _ => rfl
  | [], _ :: _, _, h2 => by simp [lexLe] at h2
  | _ :: _, [], h1, _ => by simp [lexLe] at h1
  | a :: as, b :: bs, h1, h2 => by
    rcases Nat.lt_trichotomy a.toNat b.toNat with x | x | x
    · rw [lexLe_cons_gt bs as x] at h2
      simp at h2
    · rw [lexLe_cons_eq as bs (by omega) (by omega)] at h1
      rw [lexLe_cons_eq bs as (by omega) (by omega)] at h2
      have hc : a = b := Char.ext (UInt32.ext x)
      rw [hc, lexLe_antisymm h1 h2]
    · rw [lexLe_cons_gt as bs x] at h1
      simp at h1

instance : IsTotal String strLe := ⟨fun a b => lexLe_total a.data b.data⟩

instance : IsTrans String strLe := ⟨fun _ _ _ => lexLe_trans⟩

instance : IsAntisymm String strLe :=
  ⟨fun _ _ h1 h2 => congrArg String.mk (lexLe_antisymm h1 h2)⟩

theorem sortKeys_perm (ks : List String) : (sortKeys ks).Perm ks :=
  List.perm_insertionSort _ _

theorem sortKeys_eq_of_perm {ks1 ks2 : List String} (h : ks1.Perm ks2) :
    sortKeys ks1 = sortKeys ks2 :=
  List.eq_of_perm_of_sorted
    ((sortKeys_perm ks1).trans (h.trans (sortKeys_perm ks2).symm))
    (List.sorted_insertionSort _ ks1) (List.sorted_insertionSort _ ks2)

/-- C6: for every pair of forward calls on the same model with input
mappings that have the same key set and the same value tensors but
different insertion orders, the two calls produce identical outputs:
`forward` reads the dict only through `sorted(keys)` (which fixes the
one-hot tag index and the concatenation order) and through `len(...)`,
both invariant under reordering the insertion-ordered key list. -/
theorem forward_insertion_order_invariant (P : Perceiver) (fo : FloatOps)
    (dat : String → PyTensor) (mask : Option PyTensor)
    (ks1 ks2 : List String) (h : ks1.Perm ks2) :
    forward P fo ks1 dat mask = forward P fo ks2 dat mask := by
  simp only [forward, sortKeys_eq_of_perm h, h.length_eq]

/-- Witness for C6 at a concrete input: the two insertion orders of the
modalities `a` and `bb` yield the same forward result. -/
theorem forward_insertion_order_invariant_witness :
    forward exP exFo ["a", "bb"] exDat none = forward exP exFo ["bb", "a"] exDat none :=
  forward_insertion_order_invariant exP exFo exDat none ["a", "bb"] ["bb", "a"]
    (List.Perm.swap "bb" "a" [])

/-- C7: for fixed model parameters and fixed input tensors, with dropout
inactive, two invocations of forward produce identical output tensors.  In
this embedding the model's learned kernels (with dropout inactive) and the
float library are fixed functions and `forward` has no other state, so the
claim is purity of `forward`: the two invocations are literally the same
value. -/
theorem forward_deterministic (P : Perceiver) (fo : FloatOps) (ks : List String)
    (dat : String → PyTensor) (mask : Option PyTensor) :
    forward P fo ks dat mask = forward P fo ks dat mask := rfl


theorem buildLayer_cached_hit (j cnt w x y z : Nat) :
    buildLayer true (j + 1) ⟨cnt, some w, some x, some y, some z⟩ =
      (⟨w, x, y, z⟩, ⟨cnt, some w, some x, some y, some z⟩) := by
  simp [buildLayer, getCached]

theorem buildLayer_fresh (i cnt : Nat) (m1 m2 m3 m4 : Option Nat) :
    buildLayer false i ⟨cnt, m1, m2, m3, m4⟩ =
      (⟨cnt, cnt + 1, cnt + 2, cnt + 3⟩, ⟨cnt + 4, m1, m2, m3, m4⟩) := by
  simp [buildLayer, getCached]

theorem buildLayersAux_succ (tie : Bool) (j d : Nat) (s : BuildState) :
    buildLayersAux tie j (d + 1) s =
      (buildLayer tie j s).1 :: buildLayersAux tie (j + 1) d (buildLayer tie j s).2 := by
  simp [buildLayersAux]

theorem buildLayersAux_cached (w x y z : Nat) :
    ∀ (d j cnt : Nat),
      buildLayersAux true (j + 1) d ⟨cnt, some w, some x, some y, some z⟩ =
        List.replicate d ⟨w, x, y, z⟩
  | 0, _, _ => rfl
  | d + 1, j, cnt => by
    rw [buildLayersAux_succ, buildLayer_cached_hit, List.replicate_succ]
    exact congrArg _ (buildLayersAux_cached w x y z d (j + 1) cnt)

theorem buildLayersAux_untied :
    ∀ (d i cnt : Nat) (m1 m2 m3 m4 : Option Nat),
      buildLayersAux false i d ⟨cnt, m1, m2, m3, m4⟩ =
        (List.range d).map
          (fun t => ⟨cnt + 4 * t, cnt + 4 * t + 1, cnt + 4 * t + 2, cnt + 4 * t + 3⟩)
  | 0, _, _, _, _, _, _ => rfl
  | d + 1, i, cnt, m1, m2, m3, m4 => by
    rw [buildLayersAux_succ, buildLayer_fresh, List.range_succ_eq_map, List.map_cons,
      List.map_map, buildLayersAux_untied d (i + 1) (cnt + 4) m1 m2 m3 m4]
    congr 1
    apply List.map_congr_left
    intro t _
    simp only [Function.comp_apply, BlockIds.mk.injEq]
    omega

theorem buildLayers_tied (d : Nat) :
    buildLayers (d + 1) true = ⟨0, 1, 2, 3⟩ :: List.replicate d ⟨4, 5, 6, 7⟩ := by
  rw [buildLayers, buildLayersAux_succ]
  have h0 : buildLayer true 0 ⟨0, none, none, none, none⟩ =
      (⟨0, 1, 2, 3⟩, ⟨4, none, none, none, none⟩) := by
    simp [buildLayer, getCached]
  rw [h0]
  cases d with
  | zero => rfl
  | succ d' =>
    rw [buildLayersAux_succ]
    have h1 : buildLayer true 1 ⟨4, none, none, none, none⟩ =
        (⟨4, 5, 6, 7⟩, ⟨8, some 4, some 5, some 6, some 7⟩) := by
      simp [buildLayer, getCached]
    rw [h1]
    show _ :: (⟨4, 5, 6, 7⟩ : BlockIds) ::
        buildLayersAux true (1 + 1) d' ⟨8, some 4, some 5, some 6, some 7⟩ = _
    rw [buildLayersAux_cached 4 5 6 7 d' 1 8, List.replicate_succ]

theorem buildLayers_untied (d : Nat) :
    buildLayers d false =
      (List.range d).map (fun t => ⟨4 * t, 4 * t + 1, 4 * t + 2, 4 * t + 3⟩) := by
  rw [buildLayers, buildLayersAux_untied]
  apply List.map_congr_left
  intro t _
  simp only [BlockIds.mk.injEq]
  omega

theorem tied_getElem_succ {d i : Nat} {bi : BlockIds} (hi : 1 ≤ i)
    (h : (buildLayers (d + 1) true)[i]? = some bi) : bi = ⟨4, 5, 6, 7⟩ := by
  rw [buildLayers_tied] at h
  match i, hi with
  | k + 1, _ =>
    rw [List.getElem?_cons_succ, List.getElem?_replicate] at h
    by_cases hk : k < d
    · simp [hk] at h
      exact h.symm
    · simp [hk] at h

theorem untied_getElem {d i : Nat} {bi : BlockIds}
    (h : (buildLayers d false)[i]? = some bi) :
    bi = ⟨4 * i, 4 * i + 1, 4 * i + 2, 4 * i + 3⟩ := by
  rw [buildLayers_untied, List.getElem?_map] at h
  by_cases hk : i < d
  · rw [List.getElem?_range hk] at h
    simp at h
    exact h.symm
  · rw [List.getElem?_eq_none] at h
    · simp at h
    · simpa using Nat.le_of_not_lt hk

/-- C9: with weight_tie_layers=True, every repetition after the first
reuses the same parameter instances for each of the four sub-blocks as
every other repetition after the first, while the first repetition has its
own independent parameters; with weight_tie_layers=False, all repetitions
have pairwise independent parameters.  (`cache_fn` spec-modelled: the
memoized builders are bypassed exactly for `i = 0` or untied models.) -/
theorem weight_tying_layout (d : Nat) :
    (∀ (i j : Nat) (bi bj : BlockIds), 1 ≤ i → 1 ≤ j →
      (buildLayers d true)[i]? = some bi →
      (buildLayers d true)[j]? = some bj → bi = bj) ∧
    (∀ (b0 bi : BlockIds) (i : Nat), (buildLayers d true)[0]? = some b0 → 1 ≤ i →
      (buildLayers d true)[i]? = some bi → idsDisjoint b0 bi) ∧
    (∀ (i j : Nat) (bi bj : BlockIds), i ≠ j →
      (buildLayers d false)[i]? = some bi →
      (buildLayers d false)[j]? = some bj → idsDisjoint bi bj) := by
  refine ⟨?_, ?_, ?_⟩
  · intro i j bi bj hi hj hbi hbj
    cases d with
    | zero => simp [buildLayers, buildLayersAux] at hbi
    | succ d' => rw [tied_getElem_succ hi hbi, tied_getElem_succ hj hbj]
  · intro b0 bi i hb0 hi hbi
    cases d with
    | zero => simp [buildLayers, buildLayersAux] at hb0
    | succ d' =>
      rw [buildLayers_tied] at hb0
      rw [List.getElem?_cons_zero] at hb0
      have hbi' := tied_getElem_succ hi hbi
      injection hb0 with hb0
      subst hb0
      subst hbi'
      intro x hx hy
      simp [BlockIds.ids] at hx hy
      omega
  · intro i j bi bj hij hbi hbj
    have h1 := untied_getElem hbi
    have h2 := untied_getElem hbj
    subst h1
    subst h2
    intro x hx hy
    simp [BlockIds.ids] at hx hy
    omega

/-- Witness for C9 at depth 3: repetition 0 shares no parameter instance
with repetition 1 in the tied layout. -/
theorem weight_tying_layout_witness : idsDisjoint ⟨0, 1, 2, 3⟩ ⟨4, 5, 6, 7⟩ :=
  (weight_tying_layout 3).2.1 ⟨0, 1, 2, 3⟩ ⟨4, 5, 6, 7⟩ 1 (by decide) (by decide) (by decide)

/-- C1: the source (lines 150-154) does not run all four stages in each of
the `depth` repetitions: only the cross-attention residual update is inside
the loop, and the three remaining stages run once after it with the last
repetition's modules.  With two repetitions of identity kernels and a
scalar seed of value 1, the code as written yields 2^5 = 32 while the
fully-nested interpretation required by the spec yields 2^8 = 256. -/
theorem stack_dedent_divergence :
    val0 (runStack [exBlock, exBlock] exX0 exCtx none) = 32 ∧
    val0 (runStackSpec exCtx none [exBlock, exBlock] exX0) = 256 ∧
    val0 (runStack [exBlock, exBlock] exX0 exCtx none) ≠
      val0 (runStackSpec exCtx none [exBlock, exBlock] exX0) := by
  refine ⟨?_, ?_, ?_⟩
  · norm_num [val0, runStack, crossLoop, addT, exBlock, exX0, exCtx]
  · norm_num [val0, runStackSpec, addT, exBlock, exX0, exCtx]
  · norm_num [val0, runStack, runStackSpec, crossLoop, addT, exBlock, exX0, exCtx]

/-- C5: at a forward call whose dict contains the registered modality `a`
(with a perfectly valid tensor) plus two unregistered keys, the per-call
modality count 3 makes the padding width of `a` equal to 5 - 4 - 3 = -2;
the code then attempts `torch.zeros` with a negative dimension and fails
with a torch RuntimeError — no ConfigurationError is raised at
construction or at the forward call. -/
theorem negative_padding_runtime_error :
    errOf (forward exP5 exFo ["a", "y", "z"] exDat5 none) =
      some (.runtimeError negDimMsg) := by decide

/-- Counterexample to C2 as stated: a valid single-modality call on a
model with two registered modalities.  The fused per-position width is
7 = (max input_dim = 5) + (2 registered modalities), not
6 = (max input_dim = 5) + (1 modality present in the call). -/
theorem fused_width_not_call_count :
    widthsOf (runLoop exP exFo 1 exDat 0 ⟨[], []⟩ (sortKeys ["a"])) = some [7] ∧
    maxInputDim exP.modalities + ["a"].length = 6 ∧ (7 : Nat) ≠ 6 := by decide

/-- Counterexample to C3 as stated: the dict contains the unknown key `z`,
but the registered modality `a` sorts first and its tensor has the wrong
number of axes, so forward fails with the axis-count AssertionError
(ShapeMismatchError), not with a ConfigurationError naming `z`. -/
theorem unknown_key_preempted_by_axis_assert :
    errOf (forward exP5 exFo ["a", "z"] exDat3 none) =
      some (.assertionError axisAssertMsg) ∧
    PErr.assertionError axisAssertMsg ≠ PErr.keyError "z" := by decide

/-- Counterexample to C4 as stated: submitting a tensor with one middle
axis for the modality `zz` registered with `axis_count = 2` fails with the
axis AssertionError, but its message is a fixed string that does not name
the modality (`zz`), the expected count (2), or the actual count (1). -/
theorem axis_assert_names_nothing :
    errOf (forward exP4 exFo ["zz"] exDat5 none) =
      some (.assertionError axisAssertMsg) ∧
    strContains axisAssertMsg "zz" = false ∧
    strContains axisAssertMsg "2" = false ∧
    strContains axisAssertMsg "1" = false := by decide


theorem getLast?_cons_concat (b : Nat) (l : List Nat) (a : Nat) :
    (b :: (l ++ [a])).getLast? = some a := by
  rw [← List.cons_append, List.getLast?_concat]

theorem getLastD_concat (l : List Nat) (a d : Nat) : (l ++ [a]).getLastD d = a := by
  simp [List.getLastD_eq_getLast?, List.getLast?_concat]

theorem getLastD_cons_concat (b : Nat) (l : List Nat) (a d : Nat) :
    (b :: (l ++ [a])).getLastD d = a := by
  simp [List.getLastD_eq_getLast?, getLast?_cons_concat]

theorem dropLast_cons_concat (b : Nat) (l : List Nat) (a : Nat) :
    (b :: (l ++ [a])).dropLast = b :: l := by
  rw [← List.cons_append, List.dropLast_concat]

theorem catLast_four (t1 t2 t3 t4 : PyTensor) (stem : List Nat)
    (h1 : t1.shape.dropLast = stem) (h2 : t2.shape.dropLast = stem)
    (h3 : t3.shape.dropLast = stem) (h4 : t4.shape.dropLast = stem) :
    ∃ u, catLast [t1, t2, t3, t4] = .ok u ∧
      u.shape = stem ++ [t1.shape.getLastD 0 + (t2.shape.getLastD 0 +
        (t3.shape.getLastD 0 + (t4.shape.getLastD 0 + 0)))] := by
  have hguard : ([t2, t3, t4].all (fun u => u.shape.dropLast == t1.shape.dropLast)) = true := by
    simp [h1, h2, h3, h4]
  simp only [catLast, hguard, if_true]
  exact ⟨_, rfl, by simp [h1]⟩

theorem flattenMiddle_shape (t : PyTensor) (b : Nat) (axes : List Nat) (w : Nat)
    (h : t.shape = b :: axes ++ [w]) :
    (flattenMiddle t).shape = [b, axes.prod, w] := by
  simp [flattenMiddle, h, List.dropLast_concat, List.getLastD_eq_getLast?,
    getLast?_cons_concat]

theorem insertBS_to_singleton {l : List Nat} {b : Nat} (h : l = [] ∨ l = [b]) :
    insertBS l b = [b] := by
  rcases h with rfl | rfl <;> simp [insertBS]

theorem encPos_shape (fo : FloatOps) (mf : ℚ) (bands base b : Nat) (axes : List Nat) :
    (prependBroadcast b (flattenLast2
      (fourierEncode fo mf bands base (posGrid axes)))).shape =
      b :: (axes ++ [axes.length * (2 * bands + 1)]) := by
  simp [prependBroadcast, flattenLast2, fourierEncode, posGrid, List.dropLast_concat,
    List.getLastD_eq_getLast?, List.getLast?_concat]

theorem processModality_ok (P : Perceiver) (fo : FloatOps) (n : Nat)
    (dat : String → PyTensor) (st : LoopState) (mi : Nat) (k : String)
    (b c : Nat) (m : InputModality) (axes : List Nat)
    (hm : lookupModality P.modalities k = some m)
    (hax1 : 1 ≤ m.input_axis)
    (hsh : (dat k).shape = b :: axes ++ [c])
    (hlen : axes.length = m.input_axis)
    (hpad : m.input_dim + n ≤ maxModalityDim P)
    (hst : st.batchSizes = [] ∨ st.batchSizes = [b]) :
    ∃ ch, processModality P fo n dat st mi k = .ok ⟨[b], st.chunks ++ [ch]⟩ ∧
      ch.shape = [b, axes.prod, fusedWidth P n m c] := by
  have hbs : insertBS st.batchSizes b = [b] := insertBS_to_singleton hst
  obtain ⟨u, hu, hus⟩ := catLast_four (dat k)
    (zerosT (b :: (axes ++ [((maxModalityDim P : Int) - m.input_dim - n).toNat])))
    (prependBroadcast b (flattenLast2
      (fourierEncode fo m.max_freq m.num_freq_bands m.freq_base (posGrid axes))))
    (modalityEncoding b axes mi n)
    (b :: axes)
    (by rw [hsh]; exact dropLast_cons_concat b axes c)
    (by simp [zerosT, dropLast_cons_concat])
    (by rw [encPos_shape]; exact dropLast_cons_concat b axes _)
    (by simp [modalityEncoding, dropLast_cons_concat])
  have hW : (dat k).shape.getLastD 0 +
      ((zerosT (b :: (axes ++ [((maxModalityDim P : Int) - m.input_dim - n).toNat]))).shape.getLastD 0 +
        ((prependBroadcast b (flattenLast2
          (fourierEncode fo m.max_freq m.num_freq_bands m.freq_base (posGrid axes)))).shape.getLastD 0 +
          ((modalityEncoding b axes mi n).shape.getLastD 0 + 0))) = fusedWidth P n m c := by
    rw [hsh, encPos_shape]
    simp only [List.cons_append, zerosT, modalityEncoding, getLastD_cons_concat]
    rw [hlen]
    unfold fusedWidth
    omega
  refine ⟨flattenMiddle u, ?_, ?_⟩
  · simp only [processModality, hm, hsh, List.headD_cons, List.cons_append,
      List.drop_succ_cons, List.drop_zero, List.dropLast_concat, dropLast_cons_concat,
      List.length_cons, List.length_append, List.length_singleton]
    rw [if_neg (by omega)]
    rw [hlen]
    rw [if_neg (by simp)]
    rw [hbs]
    rw [if_neg (by simp)]
    rw [if_neg (by omega)]
    rw [if_neg (by omega)]
    rw [hu]
  · rw [flattenMiddle_shape u b axes _ (by rw [hus])]
    rw [hW]


theorem lookupModality_mem {l : List InputModality} {k : String} {m : InputModality}
    (h : lookupModality l k = some m) : m ∈ l ∧ m.name = k := by
  unfold lookupModality at h
  constructor
  · exact List.mem_reverse.mp (List.mem_of_find?_eq_some h)
  · have := List.find?_some h
    simpa using this

theorem mem_le_maxInputDim {l : List InputModality} {m : InputModality} (h : m ∈ l) :
    m.input_dim ≤ maxInputDim l := by
  induction l with
  | nil => cases h
  | cons a t ih =>
    rcases List.mem_cons.mp h with rfl | h'
    · exact le_max_left _ _
    · exact le_trans (ih h') (le_max_right _ _)

theorem nodup_registered_length_le {l : List InputModality} {ks : List String}
    (hnd : ks.Nodup) (hreg : ∀ k ∈ ks, ∃ m, lookupModality l k = some m) :
    ks.length ≤ l.length := by
  have hsub : ks ⊆ l.map (fun m => m.name) := by
    intro k hk
    obtain ⟨m, hm⟩ := hreg k hk
    obtain ⟨hmem, hname⟩ := lookupModality_mem hm
    exact List.mem_map.mpr ⟨m, hmem, hname⟩
  calc ks.length = ks.toFinset.card := (List.toFinset_card_of_nodup hnd).symm
    _ ≤ (l.map (fun m => m.name)).toFinset.card := Finset.card_le_card (by
        intro x hx
        rw [List.mem_toFinset] at hx ⊢
        exact hsub hx)
    _ ≤ (l.map (fun m => m.name)).length := List.toFinset_card_le _
    _ = l.length := by simp

theorem padding_ok_of_registered (P : Perceiver) {ks : List String} (hnd : ks.Nodup)
    (hreg : ∀ k ∈ ks, ∃ m, lookupModality P.modalities k = some m) :
    ∀ {m : InputModality} {k : String}, k ∈ ks → lookupModality P.modalities k = some m →
      m.input_dim + ks.length ≤ maxModalityDim P := by
  intro m k hk hm
  have h1 : m.input_dim ≤ maxInputDim P.modalities := mem_le_maxInputDim (lookupModality_mem hm).1
  have h2 : ks.length ≤ P.modalities.length := nodup_registered_length_le hnd hreg
  unfold maxModalityDim
  omega

theorem runLoop_ok (P : Perceiver) (fo : FloatOps) (n : Nat) (dat : String → PyTensor)
    (b : Nat) :
    ∀ (l : List String) (mi : Nat) (st : LoopState),
      (∀ k ∈ l, ∃ m axes c, lookupModality P.modalities k = some m ∧ 1 ≤ m.input_axis ∧
        (dat k).shape = b :: axes ++ [c] ∧ axes.length = m.input_axis ∧
        m.input_dim + n ≤ maxModalityDim P) →
      (st.batchSizes = [] ∨ st.batchSizes = [b]) →
      ∃ st', runLoop P fo n dat mi st l = .ok st' ∧
        (l = [] → st' = st) ∧
        (l ≠ [] → st'.batchSizes = [b]) ∧
        st'.chunks.length = st.chunks.length + l.length ∧
        (∀ t ∈ st'.chunks, t ∈ st.chunks ∨ ∃ k ∈ l, ∃ m axes c,
          lookupModality P.modalities k = some m ∧ (dat k).shape = b :: axes ++ [c] ∧
          t.shape = [b, axes.prod, fusedWidth P n m c])
  | [], mi, st, hval, hst =>
    ⟨st, rfl, fun _ => rfl, fun h => absurd rfl h, by simp, fun t ht => Or.inl ht⟩
  | k :: rest, mi, st, hval, hst => by
    obtain ⟨m, axes, c, hm, hax1, hsh, hlen, hpad⟩ := hval k (by simp)
    obtain ⟨ch, hpm, hch⟩ :=
      processModality_ok P fo n dat st mi k b c m axes hm hax1 hsh hlen hpad hst
    obtain ⟨st', hrl, hemp, hbs', hlen', hmem'⟩ :=
      runLoop_ok P fo n dat b rest (mi + 1) ⟨[b], st.chunks ++ [ch]⟩
        (fun k' hk' => hval k' (by simp [hk'])) (Or.inr rfl)
    refine ⟨st', ?_, ?_, ?_, ?_, ?_⟩
    · simp only [runLoop, hpm]
      exact hrl
    · intro h
      simp at h
    · intro _
      rcases List.eq_nil_or_concat rest with rfl | _
      · rw [hemp rfl]
      · by_cases hr : rest = []
        · rw [hr] at hemp
          rw [hemp rfl]
        · exact hbs' hr
    · rw [hlen']
      simp
      omega
    · intro t ht
      rcases hmem' t ht with hin | ⟨k', hk', m', axes', c', hm', hsh', hts'⟩
      · rcases List.mem_append.mp hin with h0 | h1
        · exact Or.inl h0
        · refine Or.inr ⟨k, by simp, m, axes, c, hm, hsh, ?_⟩
          rw [List.mem_singleton.mp h1]
          exact hch
      · exact Or.inr ⟨k', by simp [hk'], m', axes', c', hm', hsh', hts'⟩


theorem runLoop_append (P : Perceiver) (fo : FloatOps) (n : Nat) (dat : String → PyTensor) :
    ∀ (l1 l2 : List String) (mi : Nat) (st : LoopState),
      runLoop P fo n dat mi st (l1 ++ l2) =
        match runLoop P fo n dat mi st l1 with
        | .error e => .error e
        | .ok st1 => runLoop P fo n dat (mi + l1.length) st1 l2
  | [], l2, mi, st => by simp [runLoop]
  | k :: rest, l2, mi, st => by
    simp only [List.cons_append, runLoop]
    cases processModality P fo n dat st mi k with
    | error e => rfl
    | ok st1 =>
      show runLoop P fo n dat (mi + 1) st1 (rest ++ l2) =
        match runLoop P fo n dat (mi + 1) st1 rest with
        | .error e => .error e
        | .ok s => runLoop P fo n dat (mi + (rest.length + 1)) s l2
      rw [runLoop_append P fo n dat rest l2 (mi + 1) st1]
      rw [show mi + 1 + rest.length = mi + (rest.length + 1) from by omega]

theorem forward_eq_of_runLoop_error {P : Perceiver} {fo : FloatOps} {ks : List String}
    {dat : String → PyTensor} {mask : Option PyTensor} {e : PErr}
    (h : runLoop P fo ks.length dat 0 ⟨[], []⟩ (sortKeys ks) = .error e) :
    forward P fo ks dat mask = .error e := by
  simp only [forward, h]

theorem processModality_ok_lookup {P : Perceiver} {fo : FloatOps} {n : Nat}
    {dat : String → PyTensor} {st : LoopState} {mi : Nat} {k : String} {st2 : LoopState}
    (h : processModality P fo n dat st mi k = .ok st2) :
    ∃ m, lookupModality P.modalities k = some m := by
  unfold processModality at h
  cases hl : lookupModality P.modalities k with
  | none => rw [hl] at h; simp at h
  | some m => exact ⟨m, rfl⟩

theorem runLoop_ok_registered {P : Perceiver} {fo : FloatOps} {n : Nat}
    {dat : String → PyTensor} :
    ∀ {l : List String} {mi : Nat} {st st' : LoopState},
      runLoop P fo n dat mi st l = .ok st' →
      ∀ k ∈ l, ∃ m, lookupModality P.modalities k = some m := by
  intro l
  induction l with
  | nil => intro mi st st' _ k hk; cases hk
  | cons k0 rest ih =>
    intro mi st st' h k hk
    simp only [runLoop] at h
    cases hpm : processModality P fo n dat st mi k0 with
    | error e => rw [hpm] at h; simp at h
    | ok st1 =>
      rw [hpm] at h
      rcases List.mem_cons.mp hk with rfl | hk'
      · exact processModality_ok_lookup hpm
      · exact ih h k hk'


/-- C3 amended. -/
theorem unknown_modality_rejection (P : Perceiver) (fo : FloatOps) (ks : List String)
    (dat : String → PyTensor) (mask : Option PyTensor)
    (hk : ∃ k ∈ ks, lookupModality P.modalities k = none) :
    (∃ e, forward P fo ks dat mask = .error e) ∧
    (∀ (pre : List String) (k0 : String) (rest : List String) (st : LoopState),
      sortKeys ks = pre ++ k0 :: rest →
      lookupModality P.modalities k0 = none →
      runLoop P fo ks.length dat 0 ⟨[], []⟩ pre = .ok st →
      forward P fo ks dat mask = .error (.keyError k0)) := by
  constructor
  · cases hrl : runLoop P fo ks.length dat 0 ⟨[], []⟩ (sortKeys ks) with
    | error e => exact ⟨e, forward_eq_of_runLoop_error hrl⟩
    | ok st' =>
      exfalso
      obtain ⟨k, hkmem, hnone⟩ := hk
      obtain ⟨m, hm⟩ := runLoop_ok_registered hrl k ((sortKeys_perm ks).mem_iff.mpr hkmem)
      rw [hnone] at hm
      cases hm
  · intro pre k0 rest st hsp hk0 hpre
    apply forward_eq_of_runLoop_error
    rw [hsp, runLoop_append P fo ks.length dat pre (k0 :: rest) 0 ⟨[], []⟩, hpre]
    show runLoop P fo ks.length dat (0 + pre.length) st (k0 :: rest) = _
    simp only [runLoop, processModality, hk0]

theorem insertBS_self (l : List Nat) (b : Nat) : b ∈ insertBS l b := by
  unfold insertBS
  split
  · assumption
  · simp

theorem insertBS_mono {l : List Nat} {x : Nat} (h : x ∈ l) (b : Nat) : x ∈ insertBS l b := by
  unfold insertBS
  split
  · exact h
  · simp [h]

theorem insertBS_len_one {l : List Nat} {b : Nat} (h : (insertBS l b).length = 1) :
    l = [] ∨ l = [b] := by
  by_cases hmem : b ∈ l
  · rw [insertBS, if_pos hmem] at h
    right
    obtain ⟨x, rfl⟩ := List.length_eq_one.mp h
    rw [List.mem_singleton.mp hmem]
  · rw [insertBS, if_neg hmem] at h
    left
    simp at h
    exact h

theorem processModality_ok_inv {P : Perceiver} {fo : FloatOps} {n : Nat}
    {dat : String → PyTensor} {st : LoopState} {mi : Nat} {k : String} {st2 : LoopState}
    (h : processModality P fo n dat st mi k = .ok st2) :
    ∃ m, lookupModality P.modalities k = some m ∧
      ((dat k).shape.drop 1).dropLast.length = m.input_axis ∧
      st2.batchSizes = insertBS st.batchSizes ((dat k).shape.headD 0) ∧
      st2.batchSizes.length = 1 := by
  unfold processModality at h
  cases hl : lookupModality P.modalities k with
  | none => rw [hl] at h; simp at h
  | some m =>
    rw [hl] at h
    simp only [] at h
    refine ⟨m, rfl, ?_⟩
    split at h
    next => simp at h
    next =>
      split at h
      next => simp at h
      next hax =>
        split at h
        next => simp at h
        next hbs =>
          split at h
          next => simp at h
          next =>
            split at h
            next => simp at h
            next =>
              split at h
              next => simp at h
              next =>
                injection h with h
                subst h
                refine ⟨not_ne_iff.mp hax, rfl, not_ne_iff.mp hbs⟩

theorem runLoop_ok_axes {P : Perceiver} {fo : FloatOps} {n : Nat} {dat : String → PyTensor} :
    ∀ {l : List String} {mi : Nat} {st st' : LoopState},
      runLoop P fo n dat mi st l = .ok st' →
      ∀ k ∈ l, ∀ m, lookupModality P.modalities k = some m →
        ((dat k).shape.drop 1).dropLast.length = m.input_axis := by
  intro l
  induction l with
  | nil => intro mi st st' _ k hk; cases hk
  | cons k0 rest ih =>
    intro mi st st' h k hk m hm
    simp only [runLoop] at h
    cases hpm : processModality P fo n dat st mi k0 with
    | error e => rw [hpm] at h; simp at h
    | ok st1 =>
      rw [hpm] at h
      rcases List.mem_cons.mp hk with rfl | hk'
      · obtain ⟨m', hm', hax, _, _⟩ := processModality_ok_inv hpm
        rw [hm] at hm'
        injection hm' with hm'
        rw [hm']
        exact hax
      · exact ih h k hk' m hm

theorem runLoop_batch_mono {P : Perceiver} {fo : FloatOps} {n : Nat} {dat : String → PyTensor} :
    ∀ {l : List String} {mi : Nat} {st st' : LoopState},
      runLoop P fo n dat mi st l = .ok st' →
      ∀ x ∈ st.batchSizes, x ∈ st'.batchSizes := by
  intro l
  induction l with
  | nil => intro mi st st' h x hx; simp only [runLoop] at h; injection h with h; rw [← h]; exact hx
  | cons k0 rest ih =>
    intro mi st st' h x hx
    simp only [runLoop] at h
    cases hpm : processModality P fo n dat st mi k0 with
    | error e => rw [hpm] at h; simp at h
    | ok st1 =>
      rw [hpm] at h
      obtain ⟨m', _, _, hbs, _⟩ := processModality_ok_inv hpm
      exact ih h x (hbs ▸ insertBS_mono hx _)

theorem runLoop_batch_mem {P : Perceiver} {fo : FloatOps} {n : Nat} {dat : String → PyTensor} :
    ∀ {l : List String} {mi : Nat} {st st' : LoopState},
      runLoop P fo n dat mi st l = .ok st' →
      ∀ k ∈ l, (dat k).shape.headD 0 ∈ st'.batchSizes := by
  intro l
  induction l with
  | nil => intro mi st st' _ k hk; cases hk
  | cons k0 rest ih =>
    intro mi st st' h k hk
    simp only [runLoop] at h
    cases hpm : processModality P fo n dat st mi k0 with
    | error e => rw [hpm] at h; simp at h
    | ok st1 =>
      rw [hpm] at h
      rcases List.mem_cons.mp hk with rfl | hk'
      · obtain ⟨m', _, _, hbs, _⟩ := processModality_ok_inv hpm
        exact runLoop_batch_mono h _ (hbs ▸ insertBS_self st.batchSizes _)
      · exact ih h k hk'

theorem runLoop_final_len {P : Perceiver} {fo : FloatOps} {n : Nat} {dat : String → PyTensor} :
    ∀ {l : List String} {mi : Nat} {st st' : LoopState}, l ≠ [] →
      runLoop P fo n dat mi st l = .ok st' → st'.batchSizes.length = 1 := by
  intro l
  induction l with
  | nil => intro mi st st' hne; exact absurd rfl hne
  | cons k0 rest ih =>
    intro mi st st' _ h
    simp only [runLoop] at h
    cases hpm : processModality P fo n dat st mi k0 with
    | error e => rw [hpm] at h; simp at h
    | ok st1 =>
      rw [hpm] at h
      by_cases hr : rest = []
      · subst hr
        simp only [runLoop] at h
        injection h with h
        obtain ⟨m', _, _, _, hlen1⟩ := processModality_ok_inv hpm
        rw [← h]
        exact hlen1
      · exact ih hr h

theorem shape_decomp (l : List Nat) (h : 2 ≤ l.length) :
    l = l.headD 0 :: ((l.drop 1).dropLast ++ [l.getLastD 0]) := by
  match l, h with
  | a :: b :: rest, _ =>
    simp only [List.headD_cons, List.drop_one, List.tail_cons]
    have hne : (b :: rest) ≠ [] := by simp
    have h2 := List.dropLast_append_getLast hne
    rw [List.getLastD_eq_getLast?, List.getLast?_cons_cons, List.getLast?_eq_getLast _ hne]
    simpa using h2.symm

/-- C3 witness. -/
theorem unknown_modality_rejection_witness :
    forward exP5 exFo ["a", "A"] exDat5 none = .error (.keyError "A") :=
  (unknown_modality_rejection exP5 exFo ["a", "A"] exDat5 none (by decide)).2
    [] "A" ["a"] ⟨[], []⟩ (by decide) (by decide) rfl

theorem processModality_cases (P : Perceiver) (fo : FloatOps) (n : Nat)
    (dat : String → PyTensor) (st : LoopState) (mi : Nat) (k : String) (m : InputModality)
    (hm : lookupModality P.modalities k = some m)
    (hd2 : 2 ≤ (dat k).shape.length)
    (hax1 : 1 ≤ m.input_axis)
    (hpad : m.input_dim + n ≤ maxModalityDim P) :
    (∃ st2, processModality P fo n dat st mi k = .ok st2) ∨
    processModality P fo n dat st mi k = .error (.assertionError axisAssertMsg) ∨
    processModality P fo n dat st mi k = .error (.assertionError batchAssertMsg) := by
  by_cases hx : ((dat k).shape.drop 1).dropLast.length = m.input_axis
  · by_cases hbl : (insertBS st.batchSizes ((dat k).shape.headD 0)).length = 1
    · left
      obtain ⟨ch, hpm, _⟩ := processModality_ok P fo n dat st mi k
        ((dat k).shape.headD 0) ((dat k).shape.getLastD 0) m
        (((dat k).shape.drop 1).dropLast) hm hax1
        (by
          conv_lhs => rw [shape_decomp (dat k).shape hd2]
          simp)
        hx hpad (insertBS_len_one hbl)
      exact ⟨_, hpm⟩
    · right; right
      simp only [processModality, hm]
      rw [if_neg (by omega)]
      rw [if_neg (not_ne_iff.mpr hx)]
      rw [if_pos hbl]
  · right; left
    simp only [processModality, hm]
    rw [if_neg (by omega)]
    rw [if_pos hx]


theorem runLoop_err_kind {P : Perceiver} {fo : FloatOps} {n : Nat} {dat : String → PyTensor} :
    ∀ {l : List String} {mi : Nat} {st : LoopState} {e : PErr},
      (∀ k ∈ l, ∃ m, lookupModality P.modalities k = some m ∧ 2 ≤ (dat k).shape.length ∧
        1 ≤ m.input_axis ∧ m.input_dim + n ≤ maxModalityDim P) →
      runLoop P fo n dat mi st l = .error e →
      e = .assertionError axisAssertMsg ∨ e = .assertionError batchAssertMsg := by
  intro l
  induction l with
  | nil => intro mi st e _ h; simp [runLoop] at h
  | cons k0 rest ih =>
    intro mi st e hv h
    simp only [runLoop] at h
    obtain ⟨m, hm, hd2, hax1, hpad⟩ := hv k0 (by simp)
    rcases processModality_cases P fo n dat st mi k0 m hm hd2 hax1 hpad with
      ⟨st2, hok⟩ | hax | hbt
    · rw [hok] at h
      exact ih (fun k hk => hv k (by simp [hk])) h
    · rw [hax] at h
      injection h with h
      exact Or.inl h.symm
    · rw [hbt] at h
      injection h with h
      exact Or.inr h.symm

/-- C4 amended. -/
theorem shape_mismatch_assertion (P : Perceiver) (fo : FloatOps) (ks : List String)
    (dat : String → PyTensor) (mask : Option PyTensor)
    (hnd : ks.Nodup)
    (hreg : ∀ k ∈ ks, ∃ m, lookupModality P.modalities k = some m ∧
      2 ≤ (dat k).shape.length ∧ 1 ≤ m.input_axis)
    (hbad : (∃ k ∈ ks, ∃ m, lookupModality P.modalities k = some m ∧
        ((dat k).shape.drop 1).dropLast.length ≠ m.input_axis) ∨
      (∃ k1 ∈ ks, ∃ k2 ∈ ks, (dat k1).shape.headD 0 ≠ (dat k2).shape.headD 0)) :
    forward P fo ks dat mask = .error (.assertionError axisAssertMsg) ∨
    forward P fo ks dat mask = .error (.assertionError batchAssertMsg) := by
  have hpadk : ∀ {m : InputModality} {k : String}, k ∈ ks →
      lookupModality P.modalities k = some m →
      m.input_dim + ks.length ≤ maxModalityDim P :=
    padding_ok_of_registered P hnd (fun k hk => (hreg k hk).imp (fun _ hm => hm.1))
  cases hrl : runLoop P fo ks.length dat 0 ⟨[], []⟩ (sortKeys ks) with
  | ok st' =>
    exfalso
    rcases hbad with ⟨k, hk, m, hm, hax⟩ | ⟨k1, hk1, k2, hk2, hbb⟩
    · exact hax (runLoop_ok_axes hrl k ((sortKeys_perm ks).mem_iff.mpr hk) m hm)
    · have h1 := runLoop_batch_mem hrl k1 ((sortKeys_perm ks).mem_iff.mpr hk1)
      have h2 := runLoop_batch_mem hrl k2 ((sortKeys_perm ks).mem_iff.mpr hk2)
      have hne : sortKeys ks ≠ [] := by
        intro hnil
        have hmem := (sortKeys_perm ks).mem_iff.mpr hk1
        rw [hnil] at hmem
        cases hmem
      have hlen1 := runLoop_final_len hne hrl
      obtain ⟨x, hx⟩ := List.length_eq_one.mp hlen1
      rw [hx] at h1 h2
      exact hbb ((List.mem_singleton.mp h1).trans (List.mem_singleton.mp h2).symm)
  | error e =>
    have hkind := runLoop_err_kind (l := sortKeys ks)
      (fun k hk => by
        have hks := (sortKeys_perm ks).mem_iff.mp hk
        obtain ⟨m, hm, hd2, hax1⟩ := hreg k hks
        exact ⟨m, hm, hd2, hax1, hpadk hks hm⟩) hrl
    rcases hkind with h | h
    · left
      rw [forward_eq_of_runLoop_error hrl, h]
    · right
      rw [forward_eq_of_runLoop_error hrl, h]

/-- C4 witness. -/
theorem shape_mismatch_assertion_witness :
    forward exP4 exFo ["zz"] exDat5 none = .error (.assertionError axisAssertMsg) ∨
    forward exP4 exFo ["zz"] exDat5 none = .error (.assertionError batchAssertMsg) :=
  shape_mismatch_assertion exP4 exFo ["zz"] exDat5 none (by decide)
    (fun k hk => ⟨mZZ, by
      rcases List.mem_singleton.mp hk with rfl
      exact ⟨rfl, by decide, by decide⟩⟩)
    (Or.inl ⟨"zz", by decide, mZZ, rfl, by decide⟩)


theorem addT_ok (a x : PyTensor) (h : a.shape = x.shape) :
    ∃ y, addT a x = .ok y ∧ y.shape = x.shape := by
  unfold addT
  rw [if_pos (by simp [h])]
  exact ⟨_, rfl, h⟩

theorem addT_err {a x : PyTensor} {e : PErr} (h : addT a x = .error e) :
    isValidationErr e = false := by
  unfold addT at h
  split at h
  · simp at h
  · injection h with h
    rw [← h]
    rfl

theorem crossLoop_ok (ctx : PyTensor) (mask : Option PyTensor) :
    ∀ (layers : List LayerBlock) (x : PyTensor),
      (∀ l ∈ layers, ∀ y c mk, (l.cross_attn y c mk).shape = y.shape) →
      ∃ x', crossLoop ctx mask layers x = .ok x' ∧ x'.shape = x.shape
  | [], x, _ => ⟨x, rfl, rfl⟩
  | l :: rest, x, hc => by
    obtain ⟨y, hy, hys⟩ := addT_ok (l.cross_attn x ctx mask) x (hc l (by simp) x ctx mask)
    obtain ⟨x', hx', hxs⟩ := crossLoop_ok ctx mask rest y (fun l' hl' => hc l' (by simp [hl']))
    refine ⟨x', ?_, by rw [hxs, hys]⟩
    simp only [crossLoop, hy]
    exact hx'

theorem crossLoop_err (ctx : PyTensor) (mask : Option PyTensor) :
    ∀ {layers : List LayerBlock} {x : PyTensor} {e : PErr},
      crossLoop ctx mask layers x = .error e → isValidationErr e = false := by
  intro layers
  induction layers with
  | nil => intro x e h; simp [crossLoop] at h
  | cons l rest ih =>
    intro x e h
    simp only [crossLoop] at h
    cases ha : addT (l.cross_attn x ctx mask) x with
    | error e' =>
      rw [ha] at h
      injection h with h
      rw [← h]
      exact addT_err ha
    | ok y =>
      rw [ha] at h
      exact ih h

theorem runStack_ok (layers : List LayerBlock) (x0 ctx : PyTensor) (mask : Option PyTensor)
    (hne : layers ≠ [])
    (hca : ∀ l ∈ layers, ∀ y c mk, (l.cross_attn y c mk).shape = y.shape)
    (hcf : ∀ l ∈ layers, ∀ y, (l.cross_ff y).shape = y.shape)
    (hla : ∀ l ∈ layers, ∀ y, (l.latent_attn y).shape = y.shape)
    (hlf : ∀ l ∈ layers, ∀ y, (l.latent_ff y).shape = y.shape) :
    ∃ x', runStack layers x0 ctx mask = .ok x' ∧ x'.shape = x0.shape := by
  obtain ⟨x1, h1, h1s⟩ := crossLoop_ok ctx mask layers x0 hca
  have hlast : layers.getLast? = some (layers.getLast hne) := List.getLast?_eq_getLast _ hne
  have hmem : layers.getLast hne ∈ layers := List.getLast_mem hne
  obtain ⟨x2, h2, h2s⟩ := addT_ok _ x1 (hcf _ hmem x1)
  obtain ⟨x3, h3, h3s⟩ := addT_ok _ x2 (hla _ hmem x2)
  obtain ⟨x4, h4, h4s⟩ := addT_ok _ x3 (hlf _ hmem x3)
  refine ⟨x4, ?_, by rw [h4s, h3s, h2s, h1s]⟩
  simp only [runStack, h1, hlast, h2, h3, h4]

theorem runStack_err {layers : List LayerBlock} {x0 ctx : PyTensor} {mask : Option PyTensor}
    {e : PErr} (h : runStack layers x0 ctx mask = .error e) : isValidationErr e = false := by
  unfold runStack at h
  cases hcl : crossLoop ctx mask layers x0 with
  | error e' =>
    rw [hcl] at h
    injection h with h
    rw [← h]
    exact crossLoop_err ctx mask hcl
  | ok x =>
    rw [hcl] at h
    simp only [] at h
    cases hgl : layers.getLast? with
    | none =>
      rw [hgl] at h
      simp only [] at h
      injection h with h
      rw [← h]
      rfl
    | some last =>
      rw [hgl] at h
      simp only [] at h
      cases h2 : addT (last.cross_ff x) x with
      | error e' =>
        rw [h2] at h
        simp only [] at h
        injection h with h
        rw [← h]
        exact addT_err h2
      | ok x2 =>
        rw [h2] at h
        simp only [] at h
        cases h3 : addT (last.latent_attn x2) x2 with
        | error e' =>
          rw [h3] at h
          simp only [] at h
          injection h with h
          rw [← h]
          exact addT_err h3
        | ok x3 =>
          rw [h3] at h
          simp only [] at h
          exact addT_err h

theorem catDim1_err {ts : List PyTensor} {e : PErr} (h : catDim1 ts = .error e) :
    isValidationErr e = false := by
  cases ts with
  | nil =>
    simp only [catDim1] at h
    injection h with h
    rw [← h]
    rfl
  | cons t rest =>
    simp only [catDim1] at h
    split at h
    · simp at h
    · injection h with h
      rw [← h]
      rfl

theorem catDim1_ok (b W : Nat) :
    ∀ (ts : List PyTensor), ts ≠ [] →
      (∀ t ∈ ts, ∃ p, t.shape = [b, p, W]) →
      ∃ u, catDim1 ts = .ok u ∧ u.shape = [b, (ts.map midLen).sum, W]
  | [], h, _ => absurd rfl h
  | t :: rest, _, hall => by
    obtain ⟨p, hp⟩ := hall t (by simp)
    have hguard : (t.shape.length == 3 && rest.all (fun u => u.shape.length == 3 &&
        (u.shape.headD 0 == t.shape.headD 0) &&
        (u.shape.getLastD 0 == t.shape.getLastD 0))) = true := by
      simp only [Bool.and_eq_true, List.all_eq_true, beq_iff_eq]
      refine ⟨by simp [hp], ?_⟩
      intro u hu
      obtain ⟨q, hq⟩ := hall u (by simp [hu])
      simp [hq, hp]
    simp only [catDim1, hguard, if_true]
    refine ⟨_, rfl, ?_⟩
    simp [hp]

theorem meanDim2_shape (t : PyTensor) (b nl ld : Nat) (h : t.shape = [b, nl, ld]) :
    (meanDim2 t).shape = [b, ld] := by
  simp [meanDim2, h]


theorem fusedWidth_eq_max (P : Perceiver) (n : Nat) (m : InputModality)
    (hpad : m.input_dim + n ≤ maxModalityDim P) :
    fusedWidth P n m m.input_channels = maxModalityDim P := by
  have hdim : m.input_dim = m.input_axis * (2 * m.num_freq_bands + 1) + m.input_channels := by
    unfold InputModality.input_dim
    ring
  unfold fusedWidth
  omega

theorem sortKeys_ne_nil {ks : List String} (hne : ks ≠ []) : sortKeys ks ≠ [] := by
  intro hnil
  apply hne
  have := (sortKeys_perm ks).length_eq
  rw [hnil] at this
  exact List.eq_nil_of_length_eq_zero this.symm

/-- C2 amended. -/
theorem fused_width_uniform (P : Perceiver) (fo : FloatOps) (ks : List String)
    (dat : String → PyTensor) (b : Nat)
    (hne : ks ≠ []) (hnd : ks.Nodup)
    (hval : ∀ k ∈ ks, ∃ m axes, lookupModality P.modalities k = some m ∧ 1 ≤ m.input_axis ∧
      (dat k).shape = b :: axes ++ [m.input_channels] ∧ axes.length = m.input_axis) :
    ∃ st, runLoop P fo ks.length dat 0 ⟨[], []⟩ (sortKeys ks) = .ok st ∧
      st.chunks ≠ [] ∧
      ∀ t ∈ st.chunks, t.shape.getLastD 0 = maxInputDim P.modalities + P.modalities.length := by
  have hpadk : ∀ {m : InputModality} {k : String}, k ∈ ks →
      lookupModality P.modalities k = some m →
      m.input_dim + ks.length ≤ maxModalityDim P :=
    padding_ok_of_registered P hnd (fun k hk => by
      obtain ⟨m, axes, hm, _, _, _⟩ := hval k hk
      exact ⟨m, hm⟩)
  obtain ⟨st', hrl, _, _, hlen, hmem⟩ := runLoop_ok P fo ks.length dat b (sortKeys ks) 0 ⟨[], []⟩
    (fun k hk => by
      have hks := (sortKeys_perm ks).mem_iff.mp hk
      obtain ⟨m, axes, hm, hax1, hsh, hlena⟩ := hval k hks
      exact ⟨m, axes, m.input_channels, hm, hax1, hsh, hlena, hpadk hks hm⟩)
    (Or.inl rfl)
  refine ⟨st', hrl, ?_, ?_⟩
  · intro hnil
    rw [hnil] at hlen
    have := (sortKeys_perm ks).length_eq
    apply hne
    apply List.eq_nil_of_length_eq_zero
    simp at hlen
    omega
  · intro t ht
    rcases hmem t ht with h0 | ⟨k, hk, m, axes, c, hm, hsh2, hts⟩
    · cases h0
    · have hks := (sortKeys_perm ks).mem_iff.mp hk
      obtain ⟨m', axes', hm', _, hsh', _⟩ := hval k hks
      rw [hm] at hm'
      injection hm' with hm'
      subst hm'
      have hcc : c = m.input_channels := by
        have hh := hsh2.symm.trans hsh'
        obtain ⟨_, h2⟩ := List.append_inj' hh (by simp)
        simpa using h2
      rw [hts]
      have hfw : fusedWidth P ks.length m c = maxModalityDim P := by
        rw [hcc]
        exact fusedWidth_eq_max P ks.length m (hpadk hks hm)
      simp only [List.getLastD_eq_getLast?, List.getLast?_cons_cons, List.getLast?_singleton,
        Option.getD_some]
      rw [hfw]
      rfl

/-- C2 witness. -/
theorem fused_width_uniform_witness :
    ∃ st, runLoop exP exFo (["a", "bb"].length) exDat 0 ⟨[], []⟩ (sortKeys ["a", "bb"]) =
        .ok st ∧ st.chunks ≠ [] ∧
      ∀ t ∈ st.chunks, t.shape.getLastD 0 = maxInputDim exP.modalities + exP.modalities.length :=
  fused_width_uniform exP exFo ["a", "bb"] exDat 2 (by decide) (by decide)
    (by
      intro k hk
      simp only [List.mem_cons, List.not_mem_nil, or_false] at hk
      rcases hk with rfl | rfl
      · exact ⟨mA, [3], rfl, by decide, rfl, rfl⟩
      · exact ⟨mB, [4], rfl, by decide, rfl, rfl⟩)


/-- C8. -/
theorem forward_output_head_shape (P : Perceiver) (fo : FloatOps) (ks : List String)
    (dat : String → PyTensor) (mask : Option PyTensor) (b nl ld : Nat)
    (hne : ks ≠ []) (hnd : ks.Nodup)
    (hval : ∀ k ∈ ks, ∃ m axes, lookupModality P.modalities k = some m ∧ 1 ≤ m.input_axis ∧
      (dat k).shape = b :: axes ++ [m.input_channels] ∧ axes.length = m.input_axis)
    (hlat : P.latents.shape = [nl, ld])
    (hlay : P.layers ≠ [])
    (hca : ∀ l ∈ P.layers, ∀ y c mk, (l.cross_attn y c mk).shape = y.shape)
    (hcf : ∀ l ∈ P.layers, ∀ y, (l.cross_ff y).shape = y.shape)
    (hla : ∀ l ∈ P.layers, ∀ y, (l.latent_attn y).shape = y.shape)
    (hlf : ∀ l ∈ P.layers, ∀ y, (l.latent_ff y).shape = y.shape)
    (hnorm : ∀ y, (P.norm y).shape = y.shape)
    (hlin : ∀ y, (P.linear y).shape = y.shape.dropLast ++ [P.num_classes]) :
    ∃ ctx xf, runStack P.layers (prependBroadcast b P.latents) ctx mask = .ok xf ∧
      forward P fo ks dat mask = .ok (P.linear (P.norm (meanDim2 xf))) ∧
      (P.linear (P.norm (meanDim2 xf))).shape = [b, P.num_classes] := by
  have hpadk : ∀ {m : InputModality} {k : String}, k ∈ ks →
      lookupModality P.modalities k = some m →
      m.input_dim + ks.length ≤ maxModalityDim P :=
    padding_ok_of_registered P hnd (fun k hk => by
      obtain ⟨m, axes, hm, _, _, _⟩ := hval k hk
      exact ⟨m, hm⟩)
  obtain ⟨st', hrl, _, hbs, hlen, hmem⟩ := runLoop_ok P fo ks.length dat b (sortKeys ks) 0
    ⟨[], []⟩
    (fun k hk => by
      have hks := (sortKeys_perm ks).mem_iff.mp hk
      obtain ⟨m, axes, hm, hax1, hsh, hlena⟩ := hval k hks
      exact ⟨m, axes, m.input_channels, hm, hax1, hsh, hlena, hpadk hks hm⟩)
    (Or.inl rfl)
  have hbsb : st'.batchSizes = [b] := hbs (sortKeys_ne_nil hne)
  have hchne : st'.chunks ≠ [] := by
    intro hnil
    rw [hnil] at hlen
    have := (sortKeys_perm ks).length_eq
    apply hne
    apply List.eq_nil_of_length_eq_zero
    simp at hlen
    omega
  have hch : ∀ t ∈ st'.chunks, ∃ p, t.shape = [b, p, maxModalityDim P] := by
    intro t ht
    rcases hmem t ht with h0 | ⟨k, hk, m, axes, c, hm, hsh2, hts⟩
    · cases h0
    · have hks := (sortKeys_perm ks).mem_iff.mp hk
      obtain ⟨m', axes', hm', _, hsh', _⟩ := hval k hks
      rw [hm] at hm'
      injection hm' with hm'
      subst hm'
      have hcc : c = m.input_channels := by
        have hh := hsh2.symm.trans hsh'
        obtain ⟨_, h2⟩ := List.append_inj' hh (by simp)
        simpa using h2
      refine ⟨axes.prod, ?_⟩
      rw [hts, hcc, fusedWidth_eq_max P ks.length m (hpadk hks hm)]
  obtain ⟨ctx, hcat, hctxs⟩ := catDim1_ok b (maxModalityDim P) st'.chunks hchne hch
  obtain ⟨xf, hrs, hxfs⟩ :=
    runStack_ok P.layers (prependBroadcast b P.latents) ctx mask hlay hca hcf hla hlf
  have hx0 : (prependBroadcast b P.latents).shape = [b, nl, ld] := by
    simp [prependBroadcast, hlat]
  refine ⟨ctx, xf, hrs, ?_, ?_⟩
  · simp only [forward, hrl, hbsb, hcat, hrs]
  · rw [hlin, hnorm, meanDim2_shape xf b nl ld (hxfs.trans hx0)]
    rfl

/-- C8 witness. -/
theorem forward_output_head_shape_witness :
    ∃ ctx xf, runStack exP.layers (prependBroadcast 2 exP.latents) ctx none = .ok xf ∧
      forward exP exFo ["a", "bb"] exDat none = .ok (exP.linear (exP.norm (meanDim2 xf))) ∧
      (exP.linear (exP.norm (meanDim2 xf))).shape = [2, exP.num_classes] :=
  forward_output_head_shape exP exFo ["a", "bb"] exDat none 2 2 3 (by decide) (by decide)
    (by
      intro k hk
      simp only [List.mem_cons, List.not_mem_nil, or_false] at hk
      rcases hk with rfl | rfl
      · exact ⟨mA, [3], rfl, by decide, rfl, rfl⟩
      · exact ⟨mB, [4], rfl, by decide, rfl, rfl⟩)
    rfl (by exact List.cons_ne_nil exBlock [])
    (fun l hl => by
      rcases List.mem_singleton.mp hl with rfl
      exact fun y c mk => rfl)
    (fun l hl => by
      rcases List.mem_singleton.mp hl with rfl
      exact fun y => rfl)
    (fun l hl => by
      rcases List.mem_singleton.mp hl with rfl
      exact fun y => rfl)
    (fun l hl => by
      rcases List.mem_singleton.mp hl with rfl
      exact fun y => rfl)
    (fun y => rfl) (fun y => rfl)

/-- C10. -/
theorem channel_width_not_validated (P : Perceiver) (fo : FloatOps) (ks : List String)
    (dat : String → PyTensor) (mask : Option PyTensor) (b : Nat)
    (hne : ks ≠ []) (hnd : ks.Nodup)
    (hval : ∀ k ∈ ks, ∃ m axes c, lookupModality P.modalities k = some m ∧ 1 ≤ m.input_axis ∧
      (dat k).shape = b :: axes ++ [c] ∧ axes.length = m.input_axis) :
    validationErrorOf (forward P fo ks dat mask) = false := by
  have hpadk : ∀ {m : InputModality} {k : String}, k ∈ ks →
      lookupModality P.modalities k = some m →
      m.input_dim + ks.length ≤ maxModalityDim P :=
    padding_ok_of_registered P hnd (fun k hk => by
      obtain ⟨m, axes, c, hm, _, _, _⟩ := hval k hk
      exact ⟨m, hm⟩)
  obtain ⟨st', hrl, _, hbs, _, _⟩ := runLoop_ok P fo ks.length dat b (sortKeys ks) 0 ⟨[], []⟩
    (fun k hk => by
      have hks := (sortKeys_perm ks).mem_iff.mp hk
      obtain ⟨m, axes, c, hm, hax1, hsh, hlena⟩ := hval k hks
      exact ⟨m, axes, c, hm, hax1, hsh, hlena, hpadk hks hm⟩)
    (Or.inl rfl)
  have hbsb : st'.batchSizes = [b] := hbs (sortKeys_ne_nil hne)
  cases hcat : catDim1 st'.chunks with
  | error e =>
    have hf : forward P fo ks dat mask = .error e := by
      simp only [forward, hrl, hbsb, hcat]
    rw [hf]
    exact catDim1_err hcat
  | ok ctx =>
    cases hrs : runStack P.layers (prependBroadcast b P.latents) ctx mask with
    | error e =>
      have hf : forward P fo ks dat mask = .error e := by
        simp only [forward, hrl, hbsb, hcat, hrs]
      rw [hf]
      exact runStack_err hrs
    | ok x =>
      have hf : forward P fo ks dat mask = .ok (P.linear (P.norm (meanDim2 x))) := by
        simp only [forward, hrl, hbsb, hcat, hrs]
      rw [hf]
      rfl

/-- C10 witness. -/
theorem channel_width_not_validated_witness :
    validationErrorOf (forward exP exFo ["a"] exDatWrong none) = false :=
  channel_width_not_validated exP exFo ["a"] exDatWrong none 2 (by decide) (by decide)
    (fun k hk => by
      rcases List.mem_singleton.mp hk with rfl
      exact ⟨mA, [3], 9, rfl, by decide, rfl, rfl⟩)
